import Mathlib

/-!
# llgo runtime-symbol bridge

A shallow embedding of `runtime.go` (the function cache `FunctionCache.NamedFunction`,
`parseFiles`, `createMalloc`) and of `pkg/runtime/unsafe.go` (`unsafe_New`,
`unsafe_NewArray`).

Mutable compiler state is passed explicitly.  A Go `panic` is a returned outcome that
carries the state reached when the panic was raised.  Packages outside these two files
(`go/parser`, `go/build`, `go/types`, the LLVM bindings, the rest of the compiler) are
parameters collected in `Env`; the part of the compiler state they own is the abstract
component `world`, which they may read and change.  They are not handed the function
cache, the package map or the builder's instruction list.

Go strings are Lean strings, read as sequences of characters; Go maps are association
lists with distinct keys (`AList`), where a lookup of an absent key yields the zero
value.  Machine integers are `Nat`/`Int` with the reduction modulo `2 ^ ptrBits` written
out where `uintptr` arithmetic can wrap.  The field `trace` of the compiler state is
instrumentation: it records, in order, the calls `NamedFunction` makes outside
`runtime.go`.
-/

namespace Llgo

/-! ## LLVM types, values and instructions -/

/-- An `llvm.Type`. -/
inductive LLType where
  | void
  | int (width : Nat)
  | pointer (elem : LLType)
  | function (ret : LLType) (params : List LLType)
  | struct (elems : List LLType)

/-- Bit width of an integer type (`llvm.Type.IntTypeWidth`). -/
def LLType.IntTypeWidth : LLType → Nat
  | .int w => w
  | _ => 0

/-- Field types of a struct type (`llvm.Type.StructElementTypes`). -/
def LLType.StructElementTypes : LLType → List LLType
  | .struct es => es
  | _ => []

/-- Pointee of a pointer type (`llvm.Type.ElementType`). -/
def LLType.ElementType : LLType → LLType
  | .pointer e => e
  | _ => .void

/-- Result type of calling a value of this type. -/
def LLType.ReturnType : LLType → LLType
  | .pointer (.function r _) => r
  | .function r _ => r
  | _ => .void

/-- An `llvm.Value`: the nil handle, a value that lives in the module (function, global,
constant), or the result of the instruction the builder emitted at position `idx`. -/
inductive Value where
  | nil
  | global (id : Nat) (ty : LLType)
  | inst (idx : Nat) (ty : LLType)

/-- The method `llvm.Value.IsNil`. -/
def Value.IsNil : Value → Bool
  | .nil => true
  | _ => false

/-- The method `llvm.Value.Type`. -/
def Value.Type : Value → LLType
  | .nil => .void
  | .global _ ty => ty
  | .inst _ ty => ty

/-- Instructions this file emits through `c.builder`. -/
inductive Instr where
  | zext (v : Value) (dest : LLType)
  | trunc (v : Value) (dest : LLType)
  | call (fn : Value) (args : List Value)

/-- Is the instruction a zero-extension? -/
def Instr.isZExt : Instr → Bool
  | .zext _ _ => true
  | _ => false

/-- Is the instruction a truncation? -/
def Instr.isTrunc : Instr → Bool
  | .trunc _ _ => true
  | _ => false

/-- Is the instruction a call? -/
def Instr.isCall : Instr → Bool
  | .call _ _ => true
  | _ => false

/-- The builder method `CreateZExt`: appends the instruction, returns its result. -/
def CreateZExt (b : List Instr) (v : Value) (dest : LLType) : Value × List Instr :=
  (.inst b.length dest, b ++ [.zext v dest])

/-- The builder method `CreateTrunc`. -/
def CreateTrunc (b : List Instr) (v : Value) (dest : LLType) : Value × List Instr :=
  (.inst b.length dest, b ++ [.trunc v dest])

/-- The builder method `CreateCall`. -/
def CreateCall (b : List Instr) (fn : Value) (args : List Value) : Value × List Instr :=
  (.inst b.length fn.Type.ReturnType, b ++ [.call fn args])

/-! ## Syntax trees, semantic objects, errors -/

/-- Identity of an `*ast.Object`. -/
abbrev Obj := Nat

/-- Identity of a `*types.Package`. -/
abbrev PackageRef := Nat

/-- Identity of an `*ast.Package`. -/
abbrev Package := Nat

/-- A top-level declaration: a `*ast.GenDecl`, or a `*ast.FuncDecl` with its
`Name.Obj` (nil for a declaration the parser does not enter in a scope). -/
inductive Decl where
  | gen
  | func (nameObj : Option Obj)

/-- An `*ast.File`, reduced to its declaration list. -/
structure File where
  Decls : List Decl

/-- A `types.Type` as far as `NamedFunction` inspects it. -/
inductive GoType where
  | signature (id : Nat)
  | other (id : Nat)

/-- Result of a successful `ctx.Check`: the package, and the `Type` field the checker
attached to each object. -/
structure Checked where
  pkg : Package
  objType : Obj → Option GoType

/-- A `*build.Package`, reduced to its directory. -/
structure BuildPackage where
  Dir : String

/-- The value `c.ArchInfo()` returns. -/
structure ArchInfo where
  IntSize : Nat
  PtrSize : Nat

/-- A `types.Context`. -/
structure Context where
  IntSize : Nat
  PtrSize : Nat

/-- A Go `error` value. -/
inductive GoError where
  | mk (msg : String)
  | duplicateFile (filename : String)

/-- The value a `panic` carries. -/
inductive Panic where
  | str (msg : String)
  | err (e : GoError)
  | runtime (msg : String)

/-- Calls `NamedFunction` makes outside this file, in the order made. -/
inductive Event where
  | scopeLookup (plain : String)
  | resolve (obj : Obj)
  | shimParse (code : String)
  | buildImport (path : String)
  | auxParse (filenames : List String)
  | typeCheck
  | addFunction (name : String)

/-- Events of the synthesis pipeline of the external path. -/
def Event.isSynthesis : Event → Bool
  | .shimParse _ => true
  | .buildImport _ => true
  | .auxParse _ => true
  | .typeCheck => true
  | .addFunction _ => true
  | _ => false

/-- The shim parse, first step of the synthesis pipeline. -/
def Event.isShimParse : Event → Bool
  | .shimParse _ => true
  | _ => false

/-- The first event of a resolution on a cache miss: the scope lookup of the local
path or the shim parse of the external path. -/
def Event.isStart : Event → Bool
  | .scopeLookup _ => true
  | .shimParse _ => true
  | _ => false

/-! ## Compiler state and collaborators -/

/-- The part of `*compiler` / `*FunctionCache` this file reads and writes.
`functions` is `FunctionCache.functions`, `pkgmap` is `c.pkgmap`, `builder` is the
instruction list behind `c.builder`, `intPtrWidth` the width of
`c.target.IntPtrType()`, `world` everything else, `trace` the calls made so far. -/
structure Compiler (W : Type) where
  moduleName : String
  functions : AList (fun _ : String => Value)
  pkgmap : AList (fun _ : Obj => PackageRef)
  builder : List Instr
  intPtrWidth : Nat
  world : W
  trace : List Event

/-- Record a call in the trace. -/
def Compiler.log {W : Type} (c : Compiler W) (e : Event) : Compiler W :=
  { c with trace := c.trace ++ [e] }

/-- Code used by `runtime.go` that lives outside it.  `Resolve` is `c.Resolve(obj)`
followed by `LLVMValue()`; it and `AddFunction` may change `world`, but no collaborator
is handed the function cache or the package map. -/
structure Env (W : Type) where
  ScopeLookup : W → String → Option Obj
  Resolve : W → Obj → Value × W
  ConstExtractValue : Value → List Nat → Value
  parserParseSource : String → Except GoError File
  parserParseFile : W → String → Except GoError (Option File)
  buildImport : W → String → BuildPackage × Option GoError
  pathJoin : String → String → String
  ArchInfo : W → ArchInfo
  Check : Context → AList (fun _ : String => File) → Except GoError Checked
  createPackageMap : Package → String → AList (fun _ : Obj => PackageRef)
  ToLLVM : W → GoType → LLType
  AddFunction : W → String → LLType → Value × W

/-- The method `strings.HasPrefix`. -/
def HasPrefix (s pre : String) : Bool :=
  pre.data.isPrefixOf s.data

/-- The slice expression `s[n:]`. -/
def sliceFrom (s : String) (n : Nat) : String :=
  ⟨s.data.drop n⟩

/-- The map key `name+":"+signature`. -/
def cacheKey (name signature : String) : String :=
  name ++ ":" ++ signature

/-- The shim source text built from a signature. -/
def shimCode (signature : String) : String :=
  "package runtime;import(\"unsafe\");" ++ signature ++ "\x7bpanic(\"\")\x7d"

/-- The loop of `parseFiles`, with the map built so far; `parseFile` is the function
called on each file name. -/
def parseFilesLoop (parseFile : String → Except GoError (Option File)) :
    List String → AList (fun _ : String => File) →
    AList (fun _ : String => File) × Option GoError
  | [], files => (files, none)
  | filename :: rest, files =>
    match parseFile filename with
    | .error err => (files, some err)
    | .ok none => parseFilesLoop parseFile rest files
    | .ok (some file) =>
      match files.lookup filename with
      | some _ => (files, some (.duplicateFile filename))
      | none => parseFilesLoop parseFile rest (files.insert filename file)

/-- The function `parseFile`: `parser.ParseFile` on a file name. -/
def parseFile {W : Type} (env : Env W) (w : W) (name : String) :
    Except GoError (Option File) :=
  env.parserParseFile w name

/-- The function `parseFiles`: starts from an empty map and returns the map built and
the error, as its named results do. -/
def parseFiles {W : Type} (env : Env W) (w : W) (filenames : List String) :
    AList (fun _ : String => File) × Option GoError :=
  parseFilesLoop (parseFile env w) filenames ∅

/-- The loop `for obj, pkg := range m { c.pkgmap[obj] = pkg }`.  The keys of `m` are
distinct, so the resulting lookups do not depend on the iteration order. -/
def registerPackageMap (pkgmap m : AList (fun _ : Obj => PackageRef)) :
    AList (fun _ : Obj => PackageRef) :=
  m.entries.foldl (fun acc e => acc.insert e.1 e.2) pkgmap

/-- Lines 35-40 of `NamedFunction`: the local path, up to the value `f`. -/
def resolveLocal {W : Type} (env : Env W) (c : Compiler W) (name : String) :
    Compiler W × Except Panic Value :=
  let plain := sliceFrom name (c.moduleName.length + 1)
  let c := c.log (.scopeLookup plain)
  match env.ScopeLookup c.world plain with
  | none => (c, .error (.str ("Missing function: " ++ name)))
  | some obj =>
    let c := c.log (.resolve obj)
    let r := env.Resolve c.world obj
    let c := { c with world := r.2 }
    (c, .ok (env.ConstExtractValue r.1 [0]))

/-- Lines 42-82 of `NamedFunction`: the external path, up to the value `f`. -/
def synthesize {W : Type} (env : Env W) (c : Compiler W) (name signature : String) :
    Compiler W × Except Panic Value :=
  let code := shimCode signature
  let c := c.log (.shimParse code)
  match env.parserParseSource code with
  | .error err => (c, .error (.err err))
  | .ok file =>
    let c := c.log (.buildImport "github.com/axw/llgo/pkg/runtime")
    match env.buildImport c.world "github.com/axw/llgo/pkg/runtime" with
    | (_, some err) => (c, .error (.err err))
    | (buildpkg, none) =>
      let runtimefiles := [env.pathJoin buildpkg.Dir "types.go"]
      let c := c.log (.auxParse runtimefiles)
      match parseFiles env c.world runtimefiles with
      | (_, some err) => (c, .error (.err err))
      | (files, none) =>
        let files := files.insert "<src>" file
        let archinfo := env.ArchInfo c.world
        let ctx : Context := ⟨archinfo.IntSize, archinfo.PtrSize⟩
        let c := c.log .typeCheck
        match env.Check ctx files with
        | .error err => (c, .error (.err err))
        | .ok checked =>
          let c := { c with
            pkgmap := registerPackageMap c.pkgmap (env.createPackageMap checked.pkg "runtime") }
          match file.Decls.getLast? with
          | none => (c, .error (.runtime "index out of range"))
          | some .gen => (c, .error (.runtime "interface conversion"))
          | some (.func none) => (c, .error (.runtime "nil pointer dereference"))
          | some (.func (some obj)) =>
            match checked.objType obj with
            | some (.signature id) =>
              match (env.ToLLVM c.world (.signature id)).StructElementTypes with
              | [] => (c, .error (.runtime "index out of range"))
              | t0 :: _ =>
                let llvmfntyp := t0.ElementType
                let c := c.log (.addFunction name)
                let r := env.AddFunction c.world name llvmfntyp
                ({ c with world := r.2 }, .ok r.1)
            | _ => (c, .error (.runtime "interface conversion"))

/-- The method `FunctionCache.NamedFunction`.  Returns the state reached and either the
returned value or the panic raised. -/
def NamedFunction {W : Type} (env : Env W) (c : Compiler W) (name signature : String) :
    Compiler W × Except Panic Value :=
  let f := (c.functions.lookup (cacheKey name signature)).getD .nil
  if f.IsNil = false then (c, .ok f)
  else
    let r :=
      if HasPrefix name (c.moduleName ++ ".") then resolveLocal env c name
      else synthesize env c name signature
    match r with
    | (c1, .error p) => (c1, .error p)
    | (c1, .ok f) =>
      ({ c1 with functions := c1.functions.insert (cacheKey name signature) f }, .ok f)

/-- The type `c.target.IntPtrType()`. -/
def IntPtrType {W : Type} (c : Compiler W) : LLType :=
  .int c.intPtrWidth

/-- The method `compiler.createMalloc`. -/
def createMalloc {W : Type} (env : Env W) (c : Compiler W) (size : Value) :
    Compiler W × Except Panic Value :=
  match NamedFunction env c "runtime.malloc" "func f(uintptr) unsafe.Pointer" with
  | (c, .error p) => (c, .error p)
  | (c, .ok malloc) =>
    let n : Int := (size.Type.IntTypeWidth : Int) - ((IntPtrType c).IntTypeWidth : Int)
    let sb : Value × List Instr :=
      if n < 0 then CreateZExt c.builder size (IntPtrType c)
      else if n > 0 then CreateTrunc c.builder size (IntPtrType c)
      else (size, c.builder)
    let r := CreateCall sb.2 malloc [sb.1]
    ({ c with builder := r.2 }, .ok r.1)

/-! ## pkg/runtime/unsafe.go -/

/-- An `unsafe.Pointer`. -/
abbrev Pointer := Nat

/-- The runtime type descriptor, reduced to its `size` field (a `uintptr`). -/
structure rtype where
  size : Nat

/-- Calls the helpers make to the runtime primitives, in the order made. -/
inductive RtCall where
  | malloc (bytes : Nat) (result : Pointer)
  | bzero (ptr : Pointer) (bytes : Nat)
  deriving DecidableEq

/-- The runtime primitives `malloc` and `bzero`, defined outside `unsafe.go`, acting on
a heap of type `H`; `ptrBits` is the width of `uintptr`. -/
structure RtEnv (H : Type) where
  ptrBits : Nat
  malloc : H → Nat → Pointer × H
  bzero : H → Pointer → Nat → H

/-- Heap and the primitive calls made so far. -/
structure Runtime (H : Type) where
  heap : H
  calls : List RtCall

/-- The conversion `uintptr(n)` of an `int`. -/
def uintptr (bits : Nat) (n : Int) : Nat :=
  (n % ((2 ^ bits : Nat) : Int)).toNat

/-- Multiplication of two `uintptr` values. -/
def mulUintptr (bits : Nat) (a b : Nat) : Nat :=
  (a * b) % 2 ^ bits

/-- A call `malloc(bytes)`. -/
def callMalloc {H : Type} (rt : RtEnv H) (s : Runtime H) (bytes : Nat) : Pointer × Runtime H :=
  let r := rt.malloc s.heap bytes
  (r.1, { heap := r.2, calls := s.calls ++ [.malloc bytes r.1] })

/-- A call `bzero(ptr, bytes)`. -/
def callBzero {H : Type} (rt : RtEnv H) (s : Runtime H) (ptr : Pointer) (bytes : Nat) :
    Runtime H :=
  { heap := rt.bzero s.heap ptr bytes, calls := s.calls ++ [.bzero ptr bytes] }

/-- The function `unsafe_New`. -/
def unsafe_New {H : Type} (rt : RtEnv H) (s : Runtime H) (t : rtype) : Pointer × Runtime H :=
  let r := callMalloc rt s t.size
  let ptr := r.1
  let s := callBzero rt r.2 ptr t.size
  (ptr, s)

/-- The function `unsafe_NewArray`. -/
def unsafe_NewArray {H : Type} (rt : RtEnv H) (s : Runtime H) (t : rtype) (n : Int) :
    Pointer × Runtime H :=
  let r := callMalloc rt s (mulUintptr rt.ptrBits t.size (uintptr rt.ptrBits n))
  let ptr := r.1
  let s := callBzero rt r.2 ptr (mulUintptr rt.ptrBits t.size (uintptr rt.ptrBits n))
  (ptr, s)

/-- Byte count of the first `malloc` among the calls. -/
def firstMallocBytes : List RtCall → Option Nat
  | [] => none
  | .malloc bytes _ :: _ => some bytes
  | .bzero _ _ :: rest => firstMallocBytes rest

/-! ## Sessions -/

/-- Does the string contain the key separator? -/
def hasColon (s : String) : Bool :=
  s.data.contains ':'

/-- `Reachable env h c`: the state `c` arises from a compiler with an empty function
cache after the requests `h` (latest first) were made to `NamedFunction`; between
requests the rest of the compiler may change anything but the cache and the module
name. -/
inductive Reachable {W : Type} (env : Env W) : List (String × String) → Compiler W → Prop where
  | init (c : Compiler W) : c.functions = ∅ → Reachable env [] c
  | call (h : List (String × String)) (c : Compiler W) (name signature : String) :
      Reachable env h c →
      Reachable env ((name, signature) :: h) (NamedFunction env c name signature).1
  | other (h : List (String × String)) (c c1 : Compiler W) :
      Reachable env h c → c1.functions = c.functions → c1.moduleName = c.moduleName →
      Reachable env h c1

/-! ## A concrete compiler -/

/-- The signature `createMalloc` requests. -/
def mallocSignature : String := "func f(uintptr) unsafe.Pointer"

/-- The function type lowered from `mallocSignature` on a 64-bit target. -/
def mallocFnType : LLType := .function (.pointer (.int 8)) [.int 64]

/-- A sample environment over a trivial world.  The module scope declares `foo` (object
1); the only signature whose shim parses and checks is `mallocSignature`, whose function
object is object 2; the checked runtime package owns objects 2 and 3. -/
def sampleEnv : Env Unit where
  ScopeLookup := fun _ s => if s = "foo" then some 1 else none
  Resolve := fun _ obj => (.global obj (.struct [.pointer mallocFnType, .pointer (.int 8)]), ())
  ConstExtractValue := fun v _ =>
    match v with
    | .global id (.struct (t :: _)) => .global (id + 100) t
    | _ => .nil
  parserParseSource := fun code =>
    if code = shimCode mallocSignature then .ok ⟨[.gen, .func (some 2)]⟩
    else .error (.mk "expected declaration")
  parserParseFile := fun _ _ => .ok (some ⟨[.gen]⟩)
  buildImport := fun _ _ => (⟨"/go/src/github.com/axw/llgo/pkg/runtime"⟩, none)
  pathJoin := fun a b => a ++ "/" ++ b
  ArchInfo := fun _ => ⟨8, 8⟩
  Check := fun _ _ => .ok ⟨7, fun obj => if obj = 2 then some (.signature 0) else none⟩
  createPackageMap := fun _ _ => (((∅ : AList (fun _ : Obj => PackageRef)).insert 2 70).insert 3 70)
  ToLLVM := fun _ _ => .struct [.pointer mallocFnType, .pointer (.int 8)]
  AddFunction := fun _ name ty => (.global name.length (.pointer ty), ())

/-- A fresh compiler for module `main` on a 64-bit target. -/
def sampleCompiler : Compiler Unit where
  moduleName := "main"
  functions := ∅
  pkgmap := ∅
  builder := []
  intPtrWidth := 64
  world := ()
  trace := []

/-- The sample compiler after it resolved `runtime.malloc` once. -/
def warmCompiler : Compiler Unit :=
  (NamedFunction sampleEnv sampleCompiler "runtime.malloc" mallocSignature).1

/-- The value the sample environment declares for `runtime.malloc`. -/
def warmValue : Value := .global 14 (.pointer mallocFnType)

/-- The sample compiler after it resolved the external name `a:x` once. -/
def collidingCompiler : Compiler Unit :=
  (NamedFunction sampleEnv sampleCompiler "a:x" mallocSignature).1

/-- A signature text whose shim does not parse. -/
def collidingSignature : String := "x:func f(uintptr) unsafe.Pointer"

/-- A runtime for a 64-bit target whose heap is a break pointer: `malloc` returns the
break and advances it. -/
def sampleRt : RtEnv Nat where
  ptrBits := 64
  malloc := fun h n => (h, h + n)
  bzero := fun h _ _ => h

/-- The runtime state at start: break at 4096, no call made. -/
def sampleRuntime : Runtime Nat := ⟨4096, []⟩

/-! # Theorems -/

/-! ## Frame facts about the two resolution paths -/

theorem resolveLocal_frame {W : Type} (env : Env W) (c : Compiler W) (name : String) :
    (resolveLocal env c name).1.functions = c.functions ∧
    (resolveLocal env c name).1.moduleName = c.moduleName ∧
    (resolveLocal env c name).1.pkgmap = c.pkgmap ∧
    (resolveLocal env c name).1.builder = c.builder ∧
    (resolveLocal env c name).1.intPtrWidth = c.intPtrWidth := by
  unfold resolveLocal
  simp only [Compiler.log]
  split <;> simp

theorem synthesize_frame {W : Type} (env : Env W) (c : Compiler W) (name signature : String) :
    (synthesize env c name signature).1.functions = c.functions ∧
    (synthesize env c name signature).1.moduleName = c.moduleName ∧
    (synthesize env c name signature).1.builder = c.builder ∧
    (synthesize env c name signature).1.intPtrWidth = c.intPtrWidth := by
  unfold synthesize
  simp only [Compiler.log]
  repeat' split
  all_goals simp

/-! ## Basic facts about `NamedFunction` -/

theorem NamedFunction_hit {W : Type} (env : Env W) (c : Compiler W) (name signature : String)
    (h : ((c.functions.lookup (cacheKey name signature)).getD .nil).IsNil = false) :
    NamedFunction env c name signature
      = (c, .ok ((c.functions.lookup (cacheKey name signature)).getD .nil)) := by
  simp [NamedFunction, h]

theorem NamedFunction_miss_local {W : Type} (env : Env W) (c : Compiler W)
    (name signature : String)
    (h : ((c.functions.lookup (cacheKey name signature)).getD .nil).IsNil = true)
    (hl : HasPrefix name (c.moduleName ++ ".") = true) :
    NamedFunction env c name signature =
      match resolveLocal env c name with
      | (c1, .error p) => (c1, .error p)
      | (c1, .ok f) =>
        ({ c1 with functions := c1.functions.insert (cacheKey name signature) f }, .ok f) := by
  simp [NamedFunction, h, hl]

theorem NamedFunction_miss_external {W : Type} (env : Env W) (c : Compiler W)
    (name signature : String)
    (h : ((c.functions.lookup (cacheKey name signature)).getD .nil).IsNil = true)
    (hl : HasPrefix name (c.moduleName ++ ".") = false) :
    NamedFunction env c name signature =
      match synthesize env c name signature with
      | (c1, .error p) => (c1, .error p)
      | (c1, .ok f) =>
        ({ c1 with functions := c1.functions.insert (cacheKey name signature) f }, .ok f) := by
  simp [NamedFunction, h, hl]

/-- A call either leaves the cache as it was, or it was a miss that succeeded with `f`
and stored `f` under the requested key. -/
theorem NamedFunction_functions {W : Type} (env : Env W) (c : Compiler W)
    (name signature : String) :
    ((NamedFunction env c name signature).1.functions = c.functions ∧
      ((NamedFunction env c name signature).2 =
          .ok ((c.functions.lookup (cacheKey name signature)).getD .nil) ∧
          ((c.functions.lookup (cacheKey name signature)).getD .nil).IsNil = false ∨
        ∃ p, (NamedFunction env c name signature).2 = .error p)) ∨
    (((c.functions.lookup (cacheKey name signature)).getD .nil).IsNil = true ∧
      ∃ f, (NamedFunction env c name signature).2 = .ok f ∧
        (NamedFunction env c name signature).1.functions
          = c.functions.insert (cacheKey name signature) f) := by
  by_cases h : ((c.functions.lookup (cacheKey name signature)).getD .nil).IsNil = false
  · left
    rw [NamedFunction_hit env c name signature h]
    exact ⟨rfl, Or.inl ⟨rfl, h⟩⟩
  · rw [Bool.not_eq_false] at h
    by_cases hl : HasPrefix name (c.moduleName ++ ".") = false
    · rw [NamedFunction_miss_external env c name signature h hl]
      have hf := (synthesize_frame env c name signature).1
      rcases hr : synthesize env c name signature with ⟨c1, _ | f⟩
      · left
        rw [hr] at hf
        exact ⟨hf, Or.inr ⟨_, rfl⟩⟩
      · right
        rw [hr] at hf
        simp only at hf
        exact ⟨h, f, rfl, by simp [hf]⟩
    · rw [Bool.not_eq_false] at hl
      rw [NamedFunction_miss_local env c name signature h hl]
      have hf := (resolveLocal_frame env c name).1
      rcases hr : resolveLocal env c name with ⟨c1, _ | f⟩
      · left
        rw [hr] at hf
        exact ⟨hf, Or.inr ⟨_, rfl⟩⟩
      · right
        rw [hr] at hf
        simp only at hf
        exact ⟨h, f, rfl, by simp [hf]⟩

theorem NamedFunction_moduleName {W : Type} (env : Env W) (c : Compiler W)
    (name signature : String) :
    (NamedFunction env c name signature).1.moduleName = c.moduleName ∧
    (NamedFunction env c name signature).1.intPtrWidth = c.intPtrWidth := by
  by_cases h : ((c.functions.lookup (cacheKey name signature)).getD .nil).IsNil = false
  · rw [NamedFunction_hit env c name signature h]
    exact ⟨rfl, rfl⟩
  · rw [Bool.not_eq_false] at h
    by_cases hl : HasPrefix name (c.moduleName ++ ".") = false
    · rw [NamedFunction_miss_external env c name signature h hl]
      have hf := synthesize_frame env c name signature
      rcases hr : synthesize env c name signature with ⟨c1, _ | f⟩ <;>
        (rw [hr] at hf; exact ⟨hf.2.1, hf.2.2.2⟩)
    · rw [Bool.not_eq_false] at hl
      rw [NamedFunction_miss_local env c name signature h hl]
      have hf := resolveLocal_frame env c name
      rcases hr : resolveLocal env c name with ⟨c1, _ | f⟩ <;>
        (rw [hr] at hf; exact ⟨hf.2.1, hf.2.2.2.2⟩)

/-- After a successful call the cache holds the returned value under the key. -/
theorem NamedFunction_ok_lookup {W : Type} (env : Env W) (c : Compiler W)
    (name signature : String) (v : Value)
    (h : (NamedFunction env c name signature).2 = .ok v) :
    (v.IsNil = false ∨ ((c.functions.lookup (cacheKey name signature)).getD .nil).IsNil = true) →
    (NamedFunction env c name signature).1.functions.lookup (cacheKey name signature)
      = some v := by
  intro hv
  rcases NamedFunction_functions env c name signature with ⟨hf, h1 | ⟨p, hp⟩⟩ | ⟨hm, f, hok, hf⟩
  · rw [hf]
    rw [h1.1] at h
    injection h with h
    rw [← h]
    cases hl : c.functions.lookup (cacheKey name signature) with
    | none => rw [hl] at h1; simp [Value.IsNil] at h1
    | some x => simp
  · rw [hp] at h; cases h
  · rw [hf]
    rw [hok] at h
    injection h with h
    simp [h]

/-! ## What each path does -/

theorem resolveLocal_none {W : Type} (env : Env W) (c : Compiler W) (name : String)
    (h : env.ScopeLookup c.world (sliceFrom name (c.moduleName.length + 1)) = none) :
    resolveLocal env c name =
      (c.log (.scopeLookup (sliceFrom name (c.moduleName.length + 1))),
        .error (.str ("Missing function: " ++ name))) := by
  simp [resolveLocal, Compiler.log, h]

theorem resolveLocal_some {W : Type} (env : Env W) (c : Compiler W) (name : String) (obj : Obj)
    (h : env.ScopeLookup c.world (sliceFrom name (c.moduleName.length + 1)) = some obj) :
    resolveLocal env c name =
      ({ c with
          world := (env.Resolve c.world obj).2
          trace := c.trace ++
            [.scopeLookup (sliceFrom name (c.moduleName.length + 1)), .resolve obj] },
        .ok (env.ConstExtractValue (env.Resolve c.world obj).1 [0])) := by
  simp [resolveLocal, Compiler.log, h]

/-- The external path starts with the shim parse, starts no other resolution, and when
it succeeds it has run the whole pipeline, ending with the declaration of `name`. -/
theorem synthesize_trace {W : Type} (env : Env W) (c : Compiler W) (name signature : String) :
    ∃ rest, (synthesize env c name signature).1.trace
        = c.trace ++ .shimParse (shimCode signature) :: rest ∧
      rest.countP Event.isStart = 0 ∧
      (∀ v, (synthesize env c name signature).2 = .ok v →
        ∃ files, rest = [.buildImport "github.com/axw/llgo/pkg/runtime", .auxParse files,
          .typeCheck, .addFunction name]) ∧
      rest.countP Event.isShimParse = 0 := by
  unfold synthesize
  simp only [Compiler.log]
  repeat' split
  all_goals simp [Event.isStart, Event.isShimParse, List.countP_cons]

/-- The external path fails with the parser's error when the shim does not parse. -/
theorem synthesize_parse_error {W : Type} (env : Env W) (c : Compiler W)
    (name signature : String) (e : GoError)
    (h : env.parserParseSource (shimCode signature) = .error e) :
    synthesize env c name signature
      = (c.log (.shimParse (shimCode signature)), .error (.err e)) := by
  simp [synthesize, h]

/-- The external path succeeds only when the shim parses. -/
theorem synthesize_ok_parse {W : Type} (env : Env W) (c : Compiler W)
    (name signature : String) (v : Value)
    (h : (synthesize env c name signature).2 = .ok v) :
    ∃ file, env.parserParseSource (shimCode signature) = .ok file := by
  cases hp : env.parserParseSource (shimCode signature) with
  | error e => rw [synthesize_parse_error env c name signature e hp] at h; cases h
  | ok file => exact ⟨file, rfl⟩

/-- The external path never raises a string panic. -/
theorem synthesize_not_str {W : Type} (env : Env W) (c : Compiler W)
    (name signature : String) (msg : String) :
    (synthesize env c name signature).2 ≠ .error (.str msg) := by
  unfold synthesize
  simp only [Compiler.log]
  repeat' split
  all_goals simp

/-! ## The package map -/

theorem foldl_insert_lookup (l : List (Sigma fun _ : Obj => PackageRef)) (hl : l.NodupKeys)
    (acc : AList (fun _ : Obj => PackageRef)) (k : Obj) :
    (l.foldl (fun acc e => acc.insert e.1 e.2) acc).lookup k
      = (match l.dlookup k with
        | some p => some p
        | none => acc.lookup k) := by
  induction l generalizing acc with
  | nil => simp
  | cons e t ih =>
    rw [List.nodupKeys_cons] at hl
    rw [List.foldl_cons, ih hl.2]
    by_cases hk : k = e.1
    · subst hk
      have hnone : t.dlookup e.1 = none := List.dlookup_eq_none.mpr hl.1
      rw [hnone, List.dlookup_cons_eq]
      simp
    · rw [List.dlookup_cons_ne _ _ hk, AList.lookup_insert_ne hk]

theorem foldl_insert_keys (l : List (Sigma fun _ : Obj => PackageRef))
    (acc : AList (fun _ : Obj => PackageRef)) :
    (∀ k, k ∈ acc.keys → k ∈ (l.foldl (fun acc e => acc.insert e.1 e.2) acc).keys) ∧
    acc.keys.length ≤ (l.foldl (fun acc e => acc.insert e.1 e.2) acc).keys.length := by
  induction l generalizing acc with
  | nil => simp
  | cons e t ih =>
    rw [List.foldl_cons]
    refine ⟨fun k hk => (ih _).1 k ?_, le_trans ?_ (ih _).2⟩
    · rw [← AList.mem_keys, AList.mem_insert]
      exact Or.inr (AList.mem_keys.mpr hk)
    · rw [AList.keys_insert, List.length_cons, List.length_erase]
      split <;> omega

/-- Every object of the registered map is in the package map with its package. -/
theorem registerPackageMap_lookup (pkgmap m : AList (fun _ : Obj => PackageRef))
    (obj : Obj) (p : PackageRef) (h : m.lookup obj = some p) :
    (registerPackageMap pkgmap m).lookup obj = some p := by
  unfold registerPackageMap
  rw [foldl_insert_lookup m.entries m.nodupKeys pkgmap obj]
  have h1 : m.entries.dlookup obj = some p := h
  rw [h1]

/-- Registration keeps every key and never lowers the entry count. -/
theorem registerPackageMap_keys (pkgmap m : AList (fun _ : Obj => PackageRef)) :
    (∀ k, k ∈ pkgmap.keys → k ∈ (registerPackageMap pkgmap m).keys) ∧
    pkgmap.keys.length ≤ (registerPackageMap pkgmap m).keys.length :=
  foldl_insert_keys m.entries pkgmap

/-- The external path leaves the package map alone or registers one checked package. -/
theorem synthesize_pkgmap {W : Type} (env : Env W) (c : Compiler W) (name signature : String) :
    (synthesize env c name signature).1.pkgmap = c.pkgmap ∨
    ∃ checked : Checked, (synthesize env c name signature).1.pkgmap
      = registerPackageMap c.pkgmap (env.createPackageMap checked.pkg "runtime") := by
  unfold synthesize
  simp only [Compiler.log]
  repeat' split
  all_goals first
    | exact Or.inl rfl
    | exact Or.inr ⟨_, rfl⟩

/-- A successful external resolution parsed the shim, imported and parsed the runtime
sources, type-checked them together and registered the checked package. -/
theorem synthesize_ok_pkgmap {W : Type} (env : Env W) (c : Compiler W)
    (name signature : String) (v : Value)
    (h : (synthesize env c name signature).2 = .ok v) :
    ∃ (file : File) (bp : BuildPackage) (files : AList (fun _ : String => File))
      (checked : Checked),
      env.parserParseSource (shimCode signature) = .ok file ∧
      env.buildImport c.world "github.com/axw/llgo/pkg/runtime" = (bp, none) ∧
      parseFiles env c.world [env.pathJoin bp.Dir "types.go"]
        = (files, none) ∧
      env.Check ⟨(env.ArchInfo c.world).IntSize, (env.ArchInfo c.world).PtrSize⟩
        (files.insert "<src>" file) = .ok checked ∧
      (synthesize env c name signature).1.pkgmap
        = registerPackageMap c.pkgmap (env.createPackageMap checked.pkg "runtime") := by
  unfold synthesize at h ⊢
  simp only [Compiler.log] at h ⊢
  split at h
  · cases h
  · rename_i file hfile
    split at h
    · cases h
    · rename_i bp hbp
      split at h
      · cases h
      · rename_i files hfiles
        split at h
        · cases h
        · rename_i checked hchecked
          refine ⟨file, bp, files, checked, hfile, hbp, hfiles, hchecked, ?_⟩
          repeat' split
          all_goals rfl

/-! ## State reached by a miss -/

theorem NamedFunction_external_state {W : Type} (env : Env W) (c : Compiler W)
    (name signature : String)
    (h : ((c.functions.lookup (cacheKey name signature)).getD .nil).IsNil = true)
    (hl : HasPrefix name (c.moduleName ++ ".") = false) :
    (NamedFunction env c name signature).2 = (synthesize env c name signature).2 ∧
    (NamedFunction env c name signature).1.trace = (synthesize env c name signature).1.trace ∧
    (NamedFunction env c name signature).1.pkgmap = (synthesize env c name signature).1.pkgmap := by
  rw [NamedFunction_miss_external env c name signature h hl]
  rcases synthesize env c name signature with ⟨c1, _ | f⟩ <;> exact ⟨rfl, rfl, rfl⟩

theorem NamedFunction_local_state {W : Type} (env : Env W) (c : Compiler W)
    (name signature : String)
    (h : ((c.functions.lookup (cacheKey name signature)).getD .nil).IsNil = true)
    (hl : HasPrefix name (c.moduleName ++ ".") = true) :
    (NamedFunction env c name signature).2 = (resolveLocal env c name).2 ∧
    (NamedFunction env c name signature).1.trace = (resolveLocal env c name).1.trace ∧
    (NamedFunction env c name signature).1.pkgmap = (resolveLocal env c name).1.pkgmap := by
  rw [NamedFunction_miss_local env c name signature h hl]
  rcases resolveLocal env c name with ⟨c1, _ | f⟩ <;> exact ⟨rfl, rfl, rfl⟩

/-- The trace the local path leaves: the scope lookup of the plain name, then at most
the resolution of the object found. -/
theorem resolveLocal_trace {W : Type} (env : Env W) (c : Compiler W) (name : String) :
    ∃ rest, (resolveLocal env c name).1.trace
        = c.trace ++ .scopeLookup (sliceFrom name (c.moduleName.length + 1)) :: rest ∧
      rest.countP Event.isStart = 0 ∧ rest.all (fun e => !e.isSynthesis) = true ∧
      rest.countP Event.isShimParse = 0 := by
  cases h : env.ScopeLookup c.world (sliceFrom name (c.moduleName.length + 1)) with
  | none =>
    rw [resolveLocal_none env c name h]
    exact ⟨[], rfl, rfl, rfl, rfl⟩
  | some obj =>
    rw [resolveLocal_some env c name obj h]
    exact ⟨[.resolve obj], rfl, rfl, rfl, rfl⟩

/-- A call starts one resolution when it misses the cache and none when it hits. -/
theorem NamedFunction_starts {W : Type} (env : Env W) (c : Compiler W)
    (name signature : String) :
    (NamedFunction env c name signature).1.trace.countP Event.isStart
      = c.trace.countP Event.isStart +
        (if ((c.functions.lookup (cacheKey name signature)).getD .nil).IsNil = true
          then 1 else 0) := by
  by_cases h : ((c.functions.lookup (cacheKey name signature)).getD .nil).IsNil = false
  · rw [NamedFunction_hit env c name signature h]
    simp [h]
  · rw [Bool.not_eq_false] at h
    by_cases hl : HasPrefix name (c.moduleName ++ ".") = false
    · rw [(NamedFunction_external_state env c name signature h hl).2.1]
      obtain ⟨rest, ht, hr, _, _⟩ := synthesize_trace env c name signature
      rw [ht]
      simp [h, List.countP_cons, hr, Event.isStart]
    · rw [Bool.not_eq_false] at hl
      rw [(NamedFunction_local_state env c name signature h hl).2.1]
      obtain ⟨rest, ht, hr, _, _⟩ := resolveLocal_trace env c name
      rw [ht]
      simp [h, List.countP_cons, hr, Event.isStart]

/-- A call parses a shim when it misses the cache with an external name, and at no
other time. -/
theorem NamedFunction_shimParses {W : Type} (env : Env W) (c : Compiler W)
    (name signature : String) :
    (NamedFunction env c name signature).1.trace.countP Event.isShimParse
      = c.trace.countP Event.isShimParse +
        (if ((c.functions.lookup (cacheKey name signature)).getD .nil).IsNil = true ∧
            HasPrefix name (c.moduleName ++ ".") = false
          then 1 else 0) := by
  by_cases h : ((c.functions.lookup (cacheKey name signature)).getD .nil).IsNil = false
  · rw [NamedFunction_hit env c name signature h]
    simp [h]
  · rw [Bool.not_eq_false] at h
    by_cases hl : HasPrefix name (c.moduleName ++ ".") = false
    · rw [(NamedFunction_external_state env c name signature h hl).2.1]
      obtain ⟨rest, ht, _, _, hr⟩ := synthesize_trace env c name signature
      rw [ht]
      simp [h, hl, List.countP_cons, hr, Event.isShimParse]
    · rw [Bool.not_eq_false] at hl
      rw [(NamedFunction_local_state env c name signature h hl).2.1]
      obtain ⟨rest, ht, _, _, hr⟩ := resolveLocal_trace env c name
      rw [ht]
      simp [h, hl, List.countP_cons, hr, Event.isShimParse]

/-! ## Claims about the cache -/

/-- C1 (amended).  If a first call `NamedFunction(name, signature)` returns a non-nil
value `v`, the immediately following call with the same arguments returns `v` and leaves
the whole state as the first call left it: the cache is unchanged and the trace gained no
event, so no shim parse, auxiliary parse, type-check, function declaration or scope
lookup was made.  Over the two calls a resolution is started once when the first call
missed the cache and never when it was itself a hit; the synthesis pipeline runs once
when the first call missed the cache with an external name and never otherwise. -/
theorem cache_idempotence {W : Type} (env : Env W) (c : Compiler W)
    (name signature : String) (v : Value)
    (h1 : (NamedFunction env c name signature).2 = .ok v) (h2 : v.IsNil = false) :
    NamedFunction env (NamedFunction env c name signature).1 name signature
      = ((NamedFunction env c name signature).1, .ok v) ∧
    (NamedFunction env (NamedFunction env c name signature).1 name signature).1.trace.countP
        Event.isStart
      = c.trace.countP Event.isStart +
        (if ((c.functions.lookup (cacheKey name signature)).getD .nil).IsNil = true
          then 1 else 0) ∧
    (NamedFunction env (NamedFunction env c name signature).1 name signature).1.trace.countP
        Event.isShimParse
      = c.trace.countP Event.isShimParse +
        (if ((c.functions.lookup (cacheKey name signature)).getD .nil).IsNil = true ∧
            HasPrefix name (c.moduleName ++ ".") = false
          then 1 else 0) := by
  have hl := NamedFunction_ok_lookup env c name signature v h1 (Or.inl h2)
  have hit : (((NamedFunction env c name signature).1.functions.lookup
      (cacheKey name signature)).getD .nil).IsNil = false := by
    rw [hl]; exact h2
  have h3 := NamedFunction_hit env (NamedFunction env c name signature).1 name signature hit
  rw [hl] at h3
  refine ⟨h3, ?_, ?_⟩
  · rw [h3]
    exact NamedFunction_starts env c name signature
  · rw [h3]
    exact NamedFunction_shimParses env c name signature

/-- C7.  Every call of `NamedFunction`, whatever its outcome, keeps each key that held a
non-nil value with the identical value, leaves every key other than the requested one as
it was, changes the requested key only when it held no non-nil value before, and adds at
most one entry. -/
theorem cache_append_only {W : Type} (env : Env W) (c : Compiler W)
    (name signature : String) :
    (∀ k v, c.functions.lookup k = some v → v.IsNil = false →
      (NamedFunction env c name signature).1.functions.lookup k = some v) ∧
    (∀ k, k ≠ cacheKey name signature →
      (NamedFunction env c name signature).1.functions.lookup k = c.functions.lookup k) ∧
    ((NamedFunction env c name signature).1.functions.lookup (cacheKey name signature)
        ≠ c.functions.lookup (cacheKey name signature) →
      ((c.functions.lookup (cacheKey name signature)).getD .nil).IsNil = true) ∧
    (NamedFunction env c name signature).1.functions.keys.length
      ≤ c.functions.keys.length + 1 := by
  rcases NamedFunction_functions env c name signature with ⟨hf, _⟩ | ⟨hm, f, _, hf⟩
  · rw [hf]
    exact ⟨fun _ _ h _ => h, fun _ _ => rfl, fun h => absurd rfl h, Nat.le_succ _⟩
  · rw [hf]
    refine ⟨fun k v hk hv => ?_, fun k hk => AList.lookup_insert_ne hk, fun _ => hm, ?_⟩
    · have hne : k ≠ cacheKey name signature := by
        intro heq
        rw [heq] at hk
        rw [hk] at hm
        simp [hv] at hm
      rw [AList.lookup_insert_ne hne]
      exact hk
    · rw [AList.keys_insert, List.length_cons]
      exact Nat.succ_le_succ (List.length_erase_le _ _)

/-- C10.  Every call of `NamedFunction` keeps every key of the package map and never
lowers its entry count; a cache hit leaves the package map unchanged; and a successful
call on the external path type-checked the runtime package afresh and left in the
package map every object of the map `createPackageMap` returns for that package, mapped
to the package `createPackageMap` gave it. -/
theorem pkgmap_monotone {W : Type} (env : Env W) (c : Compiler W) (name signature : String) :
    (∀ k, k ∈ c.pkgmap.keys → k ∈ (NamedFunction env c name signature).1.pkgmap.keys) ∧
    c.pkgmap.keys.length ≤ (NamedFunction env c name signature).1.pkgmap.keys.length ∧
    (((c.functions.lookup (cacheKey name signature)).getD .nil).IsNil = false →
      (NamedFunction env c name signature).1.pkgmap = c.pkgmap) ∧
    (((c.functions.lookup (cacheKey name signature)).getD .nil).IsNil = true →
      HasPrefix name (c.moduleName ++ ".") = false →
      ∀ v, (NamedFunction env c name signature).2 = .ok v →
      ∃ (file : File) (bp : BuildPackage) (files : AList (fun _ : String => File))
        (checked : Checked),
        env.parserParseSource (shimCode signature) = .ok file ∧
        env.buildImport c.world "github.com/axw/llgo/pkg/runtime" = (bp, none) ∧
        parseFiles env c.world [env.pathJoin bp.Dir "types.go"]
          = (files, none) ∧
        env.Check ⟨(env.ArchInfo c.world).IntSize, (env.ArchInfo c.world).PtrSize⟩
          (files.insert "<src>" file) = .ok checked ∧
        ∀ obj p, (env.createPackageMap checked.pkg "runtime").lookup obj = some p →
          (NamedFunction env c name signature).1.pkgmap.lookup obj = some p) := by
  have hkeys : (∀ k, k ∈ c.pkgmap.keys →
        k ∈ (NamedFunction env c name signature).1.pkgmap.keys) ∧
      c.pkgmap.keys.length ≤ (NamedFunction env c name signature).1.pkgmap.keys.length := by
    by_cases h : ((c.functions.lookup (cacheKey name signature)).getD .nil).IsNil = false
    · rw [NamedFunction_hit env c name signature h]
      exact ⟨fun _ hk => hk, le_refl _⟩
    · rw [Bool.not_eq_false] at h
      by_cases hl : HasPrefix name (c.moduleName ++ ".") = false
      · rw [(NamedFunction_external_state env c name signature h hl).2.2]
        rcases synthesize_pkgmap env c name signature with hs | ⟨checked, hs⟩
        · rw [hs]
          exact ⟨fun _ hk => hk, le_refl _⟩
        · rw [hs]
          exact registerPackageMap_keys _ _
      · rw [Bool.not_eq_false] at hl
        rw [(NamedFunction_local_state env c name signature h hl).2.2,
          (resolveLocal_frame env c name).2.2.1]
        exact ⟨fun _ hk => hk, le_refl _⟩
  refine ⟨hkeys.1, hkeys.2, fun h => ?_, fun h hl v hv => ?_⟩
  · rw [NamedFunction_hit env c name signature h]
  · have hst := NamedFunction_external_state env c name signature h hl
    rw [hst.1] at hv
    obtain ⟨file, bp, files, checked, h1, h2, h3, h4, h5⟩ :=
      synthesize_ok_pkgmap env c name signature v hv
    refine ⟨file, bp, files, checked, h1, h2, h3, h4, fun obj p hp => ?_⟩
    rw [hst.2.2, h5]
    exact registerPackageMap_lookup _ _ obj p hp

/-! ## The cache key -/

theorem append_sep_inj (sep : Char) (a b x y : List Char) (ha : sep ∉ a) (hb : sep ∉ b)
    (h : a ++ sep :: x = b ++ sep :: y) : a = b ∧ x = y := by
  induction a generalizing b with
  | nil =>
    cases b with
    | nil => simpa using h
    | cons d b =>
      simp only [List.nil_append, List.cons_append, List.cons.injEq] at h
      exact absurd (h.1 ▸ List.mem_cons_self _ _) hb
  | cons d a ih =>
    cases b with
    | nil =>
      simp only [List.nil_append, List.cons_append, List.cons.injEq] at h
      exact absurd (h.1 ▸ List.mem_cons_self _ _) ha
    | cons d1 b =>
      simp only [List.cons_append, List.cons.injEq] at h
      have ha1 : sep ∉ a := fun hm => ha (List.mem_cons_of_mem _ hm)
      have hb1 : sep ∉ b := fun hm => hb (List.mem_cons_of_mem _ hm)
      obtain ⟨h1, h2⟩ := ih b ha1 hb1 h.2
      exact ⟨by rw [h.1, h1], h2⟩

theorem cacheKey_data (name signature : String) :
    (cacheKey name signature).data = name.data ++ ':' :: signature.data := by
  simp [cacheKey, String.data_append]

/-- Keys of two pairs whose names contain no colon coincide only for equal pairs. -/
theorem cacheKey_inj (n1 s1 n2 s2 : String) (h1 : hasColon n1 = false)
    (h2 : hasColon n2 = false) (h : cacheKey n1 s1 = cacheKey n2 s2) :
    n1 = n2 ∧ s1 = s2 := by
  have hd : (cacheKey n1 s1).data = (cacheKey n2 s2).data := by rw [h]
  rw [cacheKey_data, cacheKey_data] at hd
  have ha : ':' ∉ n1.data := by simpa [hasColon] using h1
  have hb : ':' ∉ n2.data := by simpa [hasColon] using h2
  obtain ⟨e1, e2⟩ := append_sep_inj ':' _ _ _ _ ha hb hd
  exact ⟨String.ext e1, String.ext e2⟩

/-- Keys of the same name coincide only for equal signature texts. -/
theorem cacheKey_inj_signature (n s1 s2 : String) (h : cacheKey n s1 = cacheKey n s2) :
    s1 = s2 := by
  have hd : (cacheKey n s1).data = (cacheKey n s2).data := by rw [h]
  rw [cacheKey_data, cacheKey_data] at hd
  have := List.append_cancel_left hd
  simp only [List.cons.injEq, true_and] at this
  exact String.ext this

/-- C6 (amended).  For names that contain no colon, the key of `(n1, s1)` equals the key
of `(n2, s2)` only if `n1 = n2` and `s1 = s2`; and for any name at all, the same name
with two different signature texts never gives the same key. -/
theorem cache_key_identifies (n1 s1 n2 s2 : String) :
    (hasColon n1 = false → hasColon n2 = false →
      cacheKey n1 s1 = cacheKey n2 s2 → n1 = n2 ∧ s1 = s2) ∧
    (n1 = n2 → s1 ≠ s2 → cacheKey n1 s1 ≠ cacheKey n2 s2) := by
  refine ⟨fun h1 h2 h => cacheKey_inj n1 s1 n2 s2 h1 h2 h, fun hn hs hk => ?_⟩
  subst hn
  exact hs (cacheKey_inj_signature n1 s1 s2 hk)

/-- C6, witness: `runtime.malloc` with two signature texts has two keys. -/
theorem cache_key_identifies_witness :
    cacheKey "runtime.malloc" "func f(uintptr) unsafe.Pointer"
      ≠ cacheKey "runtime.malloc" "func f(uintptr) uintptr" :=
  (cache_key_identifies "runtime.malloc" "func f(uintptr) unsafe.Pointer"
    "runtime.malloc" "func f(uintptr) uintptr").2 rfl (by decide)

/-- C6, counterexample: the pairs `("a:x", mallocSignature)` and
`("a", "x:" ++ mallocSignature)` differ in both components and have the same key. -/
theorem cache_key_collision :
    cacheKey "a:x" mallocSignature = cacheKey "a" collidingSignature ∧
    "a:x" ≠ "a" ∧ mallocSignature ≠ collidingSignature := by
  decide

/-! ## Sessions -/

/-- Every key of a reachable cache is the key of an earlier request that was local or
whose shim parsed. -/
theorem Reachable.keys_requested {W : Type} {env : Env W} {h : List (String × String)}
    {c : Compiler W} (hr : Reachable env h c) :
    ∀ k, k ∈ c.functions → ∃ p ∈ h, k = cacheKey p.1 p.2 ∧
      (HasPrefix p.1 (c.moduleName ++ ".") = true ∨
        ∃ file, env.parserParseSource (shimCode p.2) = .ok file) := by
  induction hr with
  | init c h0 =>
    intro k hk
    rw [h0] at hk
    exact absurd hk (AList.not_mem_empty k)
  | call h c name signature _ ih =>
    intro k hk
    rw [(NamedFunction_moduleName env c name signature).1]
    rcases NamedFunction_functions env c name signature with ⟨hf, _⟩ | ⟨hm, f, hok, hf⟩
    · rw [hf] at hk
      obtain ⟨p, hp, hrest⟩ := ih k hk
      exact ⟨p, List.mem_cons_of_mem _ hp, hrest⟩
    · rw [hf, AList.mem_insert] at hk
      rcases hk with hk | hk
      · refine ⟨(name, signature), List.mem_cons_self _ _, hk, ?_⟩
        by_cases hl : HasPrefix name (c.moduleName ++ ".") = false
        · right
          rw [(NamedFunction_external_state env c name signature hm hl).1] at hok
          exact synthesize_ok_parse env c name signature f hok
        · rw [Bool.not_eq_false] at hl
          exact Or.inl hl
      · obtain ⟨p, hp, hrest⟩ := ih k hk
        exact ⟨p, List.mem_cons_of_mem _ hp, hrest⟩
  | other h c c1 _ hf hm ih =>
    intro k hk
    rw [hm]
    have hk1 : k ∈ c.functions := by
      rw [← AList.lookup_isSome] at hk ⊢
      rw [← hf]
      exact hk
    exact ih k hk1

/-- In a cache reached through colon-free names, a colon-free name has an entry only if
the pair was requested before and is local or has a shim that parses. -/
theorem Reachable.cached_requested {W : Type} {env : Env W} {h : List (String × String)}
    {c : Compiler W} (hr : Reachable env h c) (hh : ∀ p ∈ h, hasColon p.1 = false)
    (name signature : String) (hn : hasColon name = false)
    (hk : cacheKey name signature ∈ c.functions) :
    (name, signature) ∈ h ∧
      (HasPrefix name (c.moduleName ++ ".") = true ∨
        ∃ file, env.parserParseSource (shimCode signature) = .ok file) := by
  obtain ⟨p, hp, hkey, hrest⟩ := hr.keys_requested _ hk
  obtain ⟨e1, e2⟩ := cacheKey_inj name signature p.1 p.2 hn (hh p hp) hkey
  have hpe : p = (name, signature) := by
    rw [e1, e2]
  rw [hpe] at hp hrest
  exact ⟨hp, hrest⟩

theorem miss_of_not_mem {W : Type} (c : Compiler W) (k : String) (h : k ∉ c.functions) :
    ((c.functions.lookup k).getD .nil).IsNil = true := by
  rw [AList.lookup_eq_none.mpr h]
  rfl

/-- C5 (amended).  For every external name and every signature whose shim text fails to
parse, `NamedFunction` panics with the parser's error, returning no value and leaving
the state as it was apart from the recorded shim parse, in every state in which the key
of the pair holds no non-nil value; and that is so in every state reached from the empty
cache through requests whose names contain no colon, when the name contains none. -/
theorem fatal_on_bad_shim {W : Type} (env : Env W) (c : Compiler W)
    (name signature : String) (e : GoError)
    (hext : HasPrefix name (c.moduleName ++ ".") = false)
    (hp : env.parserParseSource (shimCode signature) = .error e) :
    (((c.functions.lookup (cacheKey name signature)).getD .nil).IsNil = true →
      NamedFunction env c name signature
        = (c.log (.shimParse (shimCode signature)), .error (.err e))) ∧
    (∀ h, Reachable env h c → (∀ p ∈ h, hasColon p.1 = false) → hasColon name = false →
      NamedFunction env c name signature
        = (c.log (.shimParse (shimCode signature)), .error (.err e))) := by
  have hmiss : ((c.functions.lookup (cacheKey name signature)).getD .nil).IsNil = true →
      NamedFunction env c name signature
        = (c.log (.shimParse (shimCode signature)), .error (.err e)) := by
    intro hm
    rw [NamedFunction_miss_external env c name signature hm hext,
      synthesize_parse_error env c name signature e hp]
  refine ⟨hmiss, fun h hr hh hn => hmiss (miss_of_not_mem c _ ?_)⟩
  intro hk
  rcases (hr.cached_requested hh name signature hn hk).2 with hl | ⟨file, hf⟩
  · rw [hext] at hl; cases hl
  · rw [hp] at hf; cases hf

/-- C5, witness: on a fresh compiler the request for the external name `a` with a
signature whose shim does not parse panics with the parser's error. -/
theorem fatal_on_bad_shim_witness :
    NamedFunction sampleEnv sampleCompiler "a" collidingSignature
      = (sampleCompiler.log (.shimParse (shimCode collidingSignature)),
          .error (.err (.mk "expected declaration"))) :=
  (fatal_on_bad_shim sampleEnv sampleCompiler "a" collidingSignature
    (.mk "expected declaration") (by decide) rfl).2 []
    (Reachable.init sampleCompiler rfl) (by simp) (by decide)

/-- C5, counterexample: after the successful request `("a:x", mallocSignature)` the
request for the external name `a` with the unparsable signature
`"x:" ++ mallocSignature` does not panic: it returns the value cached for the first
pair, and nothing is parsed. -/
theorem bad_shim_returns_cached :
    Reachable sampleEnv [("a:x", mallocSignature)] collidingCompiler ∧
    HasPrefix "a" (collidingCompiler.moduleName ++ ".") = false ∧
    sampleEnv.parserParseSource (shimCode collidingSignature)
      = .error (.mk "expected declaration") ∧
    NamedFunction sampleEnv collidingCompiler "a" collidingSignature
      = (collidingCompiler, .ok (.global 3 (.pointer mallocFnType))) :=
  ⟨Reachable.call [] sampleCompiler "a:x" mallocSignature (Reachable.init sampleCompiler rfl),
    by decide, rfl, rfl⟩

/-! ## Classification of names -/

theorem hasPrefix_module (m plain : String) : HasPrefix (m ++ "." ++ plain) (m ++ ".") = true := by
  unfold HasPrefix
  rw [ List.isPrefixOf_iff_prefix, String.data_append]
  exact List.prefix_append _ _

theorem sliceFrom_module (m plain : String) :
    sliceFrom (m ++ "." ++ plain) (m.length + 1) = plain := by
  unfold sliceFrom
  apply String.ext
  have hlen : (m ++ ".").data.length = m.length + 1 := by
    rw [String.data_append, List.length_append]
    rfl
  simp only [String.data_append (m ++ ".") plain]
  rw [← hlen, List.drop_left]

/-- C2 (amended).  A call whose name starts with the module name and a dot never runs
the synthesis pipeline, and on a cache miss it starts with the scope lookup of the plain
name.  A call with any other name that misses the cache starts with the shim parse and,
when it succeeds, has run the whole pipeline up to the declaration of the function.  The
first request of a pair with such a name is a miss, hence runs the pipeline, in every
state reached from the empty cache when the names requested contain no colon. -/
theorem local_external_classification {W : Type} (env : Env W) (c : Compiler W)
    (name signature : String) :
    (HasPrefix name (c.moduleName ++ ".") = true →
      ∃ delta, (NamedFunction env c name signature).1.trace = c.trace ++ delta ∧
        delta.all (fun e => !e.isSynthesis) = true ∧
        (((c.functions.lookup (cacheKey name signature)).getD .nil).IsNil = true →
          ∃ rest, delta = .scopeLookup (sliceFrom name (c.moduleName.length + 1)) :: rest)) ∧
    (HasPrefix name (c.moduleName ++ ".") = false →
      ((c.functions.lookup (cacheKey name signature)).getD .nil).IsNil = true →
      ∃ rest, (NamedFunction env c name signature).1.trace
          = c.trace ++ .shimParse (shimCode signature) :: rest ∧
        ∀ v, (NamedFunction env c name signature).2 = .ok v →
          ∃ files, rest = [.buildImport "github.com/axw/llgo/pkg/runtime", .auxParse files,
            .typeCheck, .addFunction name]) ∧
    (HasPrefix name (c.moduleName ++ ".") = false →
      ∀ h, Reachable env h c → (∀ p ∈ h, hasColon p.1 = false) → hasColon name = false →
      (name, signature) ∉ h →
      ∃ rest, (NamedFunction env c name signature).1.trace
          = c.trace ++ .shimParse (shimCode signature) :: rest ∧
        ∀ v, (NamedFunction env c name signature).2 = .ok v →
          ∃ files, rest = [.buildImport "github.com/axw/llgo/pkg/runtime", .auxParse files,
            .typeCheck, .addFunction name]) := by
  have hext : HasPrefix name (c.moduleName ++ ".") = false →
      ((c.functions.lookup (cacheKey name signature)).getD .nil).IsNil = true →
      ∃ rest, (NamedFunction env c name signature).1.trace
          = c.trace ++ .shimParse (shimCode signature) :: rest ∧
        ∀ v, (NamedFunction env c name signature).2 = .ok v →
          ∃ files, rest = [.buildImport "github.com/axw/llgo/pkg/runtime", .auxParse files,
            .typeCheck, .addFunction name] := by
    intro hl hm
    obtain ⟨rest, ht, _, hok, _⟩ := synthesize_trace env c name signature
    have hst := NamedFunction_external_state env c name signature hm hl
    exact ⟨rest, by rw [hst.2.1, ht], fun v hv => hok v (by rw [← hst.1]; exact hv)⟩
  refine ⟨fun hl => ?_, hext, fun hl h hr hh hn hnot => ?_⟩
  · by_cases hm : ((c.functions.lookup (cacheKey name signature)).getD .nil).IsNil = false
    · rw [NamedFunction_hit env c name signature hm]
      exact ⟨[], by simp, rfl, fun h => by rw [hm] at h; cases h⟩
    · rw [Bool.not_eq_false] at hm
      obtain ⟨rest, ht, _, hall, _⟩ := resolveLocal_trace env c name
      refine ⟨_, by rw [(NamedFunction_local_state env c name signature hm hl).2.1, ht], ?_,
        fun _ => ⟨rest, rfl⟩⟩
      simpa [Event.isSynthesis] using hall
  · have hmiss : cacheKey name signature ∉ c.functions := fun hk =>
      hnot (hr.cached_requested hh name signature hn hk).1
    exact hext hl (miss_of_not_mem c _ hmiss)

/-- C2, witness: on a fresh compiler for module `main`, `main.foo` resolves through the
scope lookup of `foo`, and the first request of `runtime.malloc` runs the pipeline. -/
theorem local_external_classification_witness :
    (∃ delta, (NamedFunction sampleEnv sampleCompiler "main.foo" "func f()").1.trace
        = sampleCompiler.trace ++ delta ∧
        delta.all (fun e => !e.isSynthesis) = true ∧
        ((((sampleCompiler.functions.lookup (cacheKey "main.foo" "func f()")).getD
              .nil).IsNil = true) →
          ∃ rest, delta = .scopeLookup
            (sliceFrom "main.foo" (sampleCompiler.moduleName.length + 1)) :: rest)) ∧
    (∃ rest, (NamedFunction sampleEnv sampleCompiler "runtime.malloc" mallocSignature).1.trace
        = sampleCompiler.trace ++ .shimParse (shimCode mallocSignature) :: rest ∧
      ∀ v, (NamedFunction sampleEnv sampleCompiler "runtime.malloc" mallocSignature).2
          = .ok v →
        ∃ files, rest = [.buildImport "github.com/axw/llgo/pkg/runtime", .auxParse files,
          .typeCheck, .addFunction "runtime.malloc"]) :=
  ⟨(local_external_classification sampleEnv sampleCompiler "main.foo" "func f()").1
      (by decide),
    (local_external_classification sampleEnv sampleCompiler "runtime.malloc"
      mallocSignature).2.2 (by decide) [] (Reachable.init sampleCompiler rfl) (by simp)
      (by decide) (by simp)⟩

/-- C2, counterexample: after the request `("a:x", mallocSignature)` the pair
`("a", "x:" ++ mallocSignature)`, never requested before and with an external name, is
served from the cache on its first request: the trace gains no event. -/
theorem first_request_without_synthesis :
    Reachable sampleEnv [("a:x", mallocSignature)] collidingCompiler ∧
    ("a", collidingSignature) ∉ [("a:x", mallocSignature)] ∧
    HasPrefix "a" (collidingCompiler.moduleName ++ ".") = false ∧
    (NamedFunction sampleEnv collidingCompiler "a" collidingSignature).1.trace
      = collidingCompiler.trace ∧
    (NamedFunction sampleEnv collidingCompiler "a" collidingSignature).1.trace.countP
        Event.isSynthesis
      = collidingCompiler.trace.countP Event.isSynthesis :=
  ⟨Reachable.call [] sampleCompiler "a:x" mallocSignature (Reachable.init sampleCompiler rfl),
    by decide, by decide, rfl, rfl⟩

/-- C8.  On a cache miss for the name `M + "." + plain`, with `M` the module name,
`NamedFunction` first looks up exactly `plain` in the module scope; when the lookup
finds nothing it panics with `"Missing function: "` followed by the full name, having
done nothing else (no resolution, no synthesis, cache unchanged).  For any name, a panic
carrying a string is this one and arises only from a miss on a local name whose plain
name the scope does not hold. -/
theorem missing_local_symbol {W : Type} (env : Env W) (c : Compiler W)
    (plain signature : String) :
    (((c.functions.lookup (cacheKey (c.moduleName ++ "." ++ plain) signature)).getD
          .nil).IsNil = true →
      (∃ rest, (NamedFunction env c (c.moduleName ++ "." ++ plain) signature).1.trace
          = c.trace ++ .scopeLookup plain :: rest) ∧
      (env.ScopeLookup c.world plain = none →
        NamedFunction env c (c.moduleName ++ "." ++ plain) signature
          = (c.log (.scopeLookup plain),
              .error (.str ("Missing function: " ++ (c.moduleName ++ "." ++ plain)))))) ∧
    (∀ name msg, (NamedFunction env c name signature).2 = .error (.str msg) →
      msg = "Missing function: " ++ name ∧
      ((c.functions.lookup (cacheKey name signature)).getD .nil).IsNil = true ∧
      HasPrefix name (c.moduleName ++ ".") = true ∧
      env.ScopeLookup c.world (sliceFrom name (c.moduleName.length + 1)) = none) := by
  refine ⟨fun hm => ⟨?_, fun hnone => ?_⟩, fun name msg herr => ?_⟩
  · obtain ⟨rest, ht, _⟩ := resolveLocal_trace env c (c.moduleName ++ "." ++ plain)
    rw [sliceFrom_module] at ht
    exact ⟨rest, by
      rw [(NamedFunction_local_state env c _ signature hm (hasPrefix_module _ _)).2.1, ht]⟩
  · rw [NamedFunction_miss_local env c _ signature hm (hasPrefix_module _ _),
      resolveLocal_none env c _ (by rw [sliceFrom_module]; exact hnone), sliceFrom_module]
  · by_cases hm : ((c.functions.lookup (cacheKey name signature)).getD .nil).IsNil = false
    · rw [NamedFunction_hit env c name signature hm] at herr
      cases herr
    · rw [Bool.not_eq_false] at hm
      by_cases hl : HasPrefix name (c.moduleName ++ ".") = false
      · rw [(NamedFunction_external_state env c name signature hm hl).1] at herr
        exact absurd herr (synthesize_not_str env c name signature msg)
      · rw [Bool.not_eq_false] at hl
        rw [(NamedFunction_local_state env c name signature hm hl).1] at herr
        cases hs : env.ScopeLookup c.world (sliceFrom name (c.moduleName.length + 1)) with
        | none =>
          rw [resolveLocal_none env c name hs] at herr
          simp only [Except.error.injEq, Panic.str.injEq] at herr
          exact ⟨herr.symm, hm, hl, rfl⟩
        | some obj =>
          rw [resolveLocal_some env c name obj hs] at herr
          cases herr

/-- C8, witness: module `main` declares no `bar`, so the request for `main.bar` looks up
`bar` and panics with the missing-function message. -/
theorem missing_local_symbol_witness :
    (∃ rest, (NamedFunction sampleEnv sampleCompiler ("main" ++ "." ++ "bar") "func f()").1.trace
        = sampleCompiler.trace ++ .scopeLookup "bar" :: rest) ∧
    NamedFunction sampleEnv sampleCompiler ("main" ++ "." ++ "bar") "func f()"
      = (sampleCompiler.log (.scopeLookup "bar"),
          .error (.str ("Missing function: " ++ ("main" ++ "." ++ "bar")))) :=
  ⟨((missing_local_symbol sampleEnv sampleCompiler "bar" "func f()").1 (by decide)).1,
    ((missing_local_symbol sampleEnv sampleCompiler "bar" "func f()").1 (by decide)).2 rfl⟩

/-! ## Witnesses and counterexample for the cache claims -/

/-- C1, witness: on a fresh compiler the first request of `runtime.malloc` returns the
declared function, the second returns it again without changing the state, and one
resolution was started over the two calls. -/
theorem cache_idempotence_witness :
    NamedFunction sampleEnv warmCompiler "runtime.malloc" mallocSignature
      = (warmCompiler, .ok warmValue) ∧
    (NamedFunction sampleEnv warmCompiler "runtime.malloc" mallocSignature).1.trace.countP
        Event.isStart = 1 ∧
    (NamedFunction sampleEnv warmCompiler "runtime.malloc" mallocSignature).1.trace.countP
        Event.isShimParse = 1 :=
  cache_idempotence sampleEnv sampleCompiler "runtime.malloc" mallocSignature warmValue
    rfl rfl

/-- C1, counterexample: when the cache already holds `runtime.malloc`, a first call
returns the non-nil cached value, and after the second call the trace is the one before
the first: no shim was parsed and no resolution started in either call, so synthesis
occurred zero times over the two calls, not once. -/
theorem no_synthesis_over_two_hits :
    (NamedFunction sampleEnv warmCompiler "runtime.malloc" mallocSignature).2
      = .ok warmValue ∧
    warmValue.IsNil = false ∧
    (NamedFunction sampleEnv
        (NamedFunction sampleEnv warmCompiler "runtime.malloc" mallocSignature).1
        "runtime.malloc" mallocSignature).1.trace
      = warmCompiler.trace ∧
    (NamedFunction sampleEnv
        (NamedFunction sampleEnv warmCompiler "runtime.malloc" mallocSignature).1
        "runtime.malloc" mallocSignature).1.trace.countP Event.isShimParse
      = warmCompiler.trace.countP Event.isShimParse ∧
    (NamedFunction sampleEnv
        (NamedFunction sampleEnv warmCompiler "runtime.malloc" mallocSignature).1
        "runtime.malloc" mallocSignature).1.trace.countP Event.isStart
      = warmCompiler.trace.countP Event.isStart :=
  ⟨rfl, rfl, rfl, rfl, rfl⟩

/-- C7, witness: the request of `runtime.malloc` on a warm cache keeps the entry, and
on a fresh cache adds one entry. -/
theorem cache_append_only_witness :
    (NamedFunction sampleEnv warmCompiler "a" collidingSignature).1.functions.lookup
        (cacheKey "runtime.malloc" mallocSignature) = some warmValue ∧
    (NamedFunction sampleEnv sampleCompiler "runtime.malloc" mallocSignature).1.functions.keys.length
      ≤ sampleCompiler.functions.keys.length + 1 :=
  ⟨(cache_append_only sampleEnv warmCompiler "a" collidingSignature).1
      (cacheKey "runtime.malloc" mallocSignature) warmValue rfl rfl,
    (cache_append_only sampleEnv sampleCompiler "runtime.malloc" mallocSignature).2.2.2⟩

/-- C10, witness: the first request of `runtime.malloc` on a fresh compiler leaves
objects 2 and 3 of the checked runtime package in the package map; the second request, a
hit, leaves the package map as it was. -/
theorem pkgmap_monotone_witness :
    (NamedFunction sampleEnv warmCompiler "runtime.malloc" mallocSignature).1.pkgmap
      = warmCompiler.pkgmap ∧
    ∃ (file : File) (bp : BuildPackage) (files : AList (fun _ : String => File))
      (checked : Checked),
      sampleEnv.parserParseSource (shimCode mallocSignature) = .ok file ∧
      sampleEnv.buildImport sampleCompiler.world "github.com/axw/llgo/pkg/runtime"
        = (bp, none) ∧
      parseFiles sampleEnv sampleCompiler.world
        [sampleEnv.pathJoin bp.Dir "types.go"] = (files, none) ∧
      sampleEnv.Check ⟨(sampleEnv.ArchInfo sampleCompiler.world).IntSize,
          (sampleEnv.ArchInfo sampleCompiler.world).PtrSize⟩
        (files.insert "<src>" file) = .ok checked ∧
      ∀ obj p, (sampleEnv.createPackageMap checked.pkg "runtime").lookup obj = some p →
        (NamedFunction sampleEnv sampleCompiler "runtime.malloc"
          mallocSignature).1.pkgmap.lookup obj = some p :=
  ⟨(pkgmap_monotone sampleEnv warmCompiler "runtime.malloc" mallocSignature).2.2.1 rfl,
    (pkgmap_monotone sampleEnv sampleCompiler "runtime.malloc" mallocSignature).2.2.2
      rfl (by decide) warmValue rfl⟩

/-! ## Allocation -/

/-- C3.  For a size value of integer width `w` and pointer-integer width `p`:
when the resolution of `runtime.malloc` panics, `createMalloc` panics likewise in the
state the resolution left; when it returns `malloc`, leaving state `c1`, `createMalloc`
appends to the builder a conversion list and then one call of `malloc` with a single
argument of width exactly `p`.  The conversion list is one zero-extension of the size to
width `p` when `w < p`, one truncation of the size to width `p` when `w > p`, and empty
when `w = p`, in which case the argument is the size itself. -/
theorem width_reconciliation {W : Type} (env : Env W) (c : Compiler W)
    (size : Value) (w : Nat) (hty : size.Type = .int w) :
    match NamedFunction env c "runtime.malloc" "func f(uintptr) unsafe.Pointer" with
    | (c1, .error p) => createMalloc env c size = (c1, .error p)
    | (c1, .ok malloc) =>
      ∃ conv arg,
        (createMalloc env c size).1.builder = c1.builder ++ conv ++ [.call malloc [arg]] ∧
        (createMalloc env c size).2
          = .ok (.inst (c1.builder ++ conv).length malloc.Type.ReturnType) ∧
        arg.Type.IntTypeWidth = c.intPtrWidth ∧
        conv.countP Instr.isZExt = (if w < c.intPtrWidth then 1 else 0) ∧
        conv.countP Instr.isTrunc = (if c.intPtrWidth < w then 1 else 0) ∧
        (w < c.intPtrWidth → conv = [.zext size (.int c.intPtrWidth)] ∧
          arg = .inst c1.builder.length (.int c.intPtrWidth)) ∧
        (c.intPtrWidth < w → conv = [.trunc size (.int c.intPtrWidth)] ∧
          arg = .inst c1.builder.length (.int c.intPtrWidth)) ∧
        (w = c.intPtrWidth → conv = [] ∧ arg = size) := by
  have hpw := (NamedFunction_moduleName env c "runtime.malloc"
    "func f(uintptr) unsafe.Pointer").2
  rcases hres : NamedFunction env c "runtime.malloc" "func f(uintptr) unsafe.Pointer"
    with ⟨c1, p | malloc⟩
  · simp [createMalloc, hres]
  have hp : c1.intPtrWidth = c.intPtrWidth := by
    rw [hres] at hpw
    exact hpw
  show ∃ conv arg, _
  rcases Nat.lt_trichotomy w c.intPtrWidth with hlt | heq | hgt
  · refine ⟨[.zext size (.int c.intPtrWidth)], .inst c1.builder.length (.int c.intPtrWidth),
      ?_, ?_, rfl, ?_, ?_, fun _ => ⟨rfl, rfl⟩, fun h => absurd h (by omega),
      fun h => absurd h (by omega)⟩
    · have hn : (w : Int) - (c.intPtrWidth : Int) < 0 := by omega
      simp [createMalloc, hres, hty, IntPtrType, hp, LLType.IntTypeWidth, hn, CreateZExt,
        CreateCall]
    · have hn : (w : Int) - (c.intPtrWidth : Int) < 0 := by omega
      simp [createMalloc, hres, hty, IntPtrType, hp, LLType.IntTypeWidth, hn, CreateZExt,
        CreateCall]
    · simp [hlt, Instr.isZExt]
    · have : ¬ c.intPtrWidth < w := by omega
      simp [this, Instr.isTrunc]
  · refine ⟨[], size, ?_, ?_, ?_, ?_, ?_, fun h => absurd h (by omega),
      fun h => absurd h (by omega), fun _ => ⟨rfl, rfl⟩⟩
    · simp [createMalloc, hres, hty, IntPtrType, hp, LLType.IntTypeWidth, heq, CreateCall]
    · simp [createMalloc, hres, hty, IntPtrType, hp, LLType.IntTypeWidth, heq, CreateCall]
    · rw [hty, ← heq]; rfl
    · simp [heq]
    · simp [heq]
  · refine ⟨[.trunc size (.int c.intPtrWidth)], .inst c1.builder.length (.int c.intPtrWidth),
      ?_, ?_, rfl, ?_, ?_, fun h => absurd h (by omega), fun _ => ⟨rfl, rfl⟩,
      fun h => absurd h (by omega)⟩
    · have hn : ¬ (w : Int) - (c.intPtrWidth : Int) < 0 := by omega
      have hn1 : (0 : Int) < (w : Int) - (c.intPtrWidth : Int) := by omega
      simp [createMalloc, hres, hty, IntPtrType, hp, LLType.IntTypeWidth, hn, hn1,
        CreateTrunc, CreateCall]
    · have hn : ¬ (w : Int) - (c.intPtrWidth : Int) < 0 := by omega
      have hn1 : (0 : Int) < (w : Int) - (c.intPtrWidth : Int) := by omega
      simp [createMalloc, hres, hty, IntPtrType, hp, LLType.IntTypeWidth, hn, hn1,
        CreateTrunc, CreateCall]
    · have : ¬ w < c.intPtrWidth := by omega
      simp [this, Instr.isZExt]
    · simp [hgt, Instr.isTrunc]

/-- C3, witness: a 32-bit size on the 64-bit sample target is zero-extended once, and
the call of the resolved `runtime.malloc` receives the 64-bit result. -/
theorem width_reconciliation_witness :
    ∃ conv arg,
      (createMalloc sampleEnv sampleCompiler (.global 7 (.int 32))).1.builder
        = warmCompiler.builder ++ conv ++ [.call warmValue [arg]] ∧
      (createMalloc sampleEnv sampleCompiler (.global 7 (.int 32))).2
        = .ok (.inst (warmCompiler.builder ++ conv).length warmValue.Type.ReturnType) ∧
      arg.Type.IntTypeWidth = 64 ∧
      conv.countP Instr.isZExt = 1 ∧
      conv.countP Instr.isTrunc = 0 ∧
      ((32 : Nat) < 64 → conv = [.zext (.global 7 (.int 32)) (.int 64)] ∧
        arg = .inst warmCompiler.builder.length (.int 64)) ∧
      ((64 : Nat) < 32 → conv = [.trunc (.global 7 (.int 32)) (.int 64)] ∧
        arg = .inst warmCompiler.builder.length (.int 64)) ∧
      ((32 : Nat) = 64 → conv = [] ∧ arg = .global 7 (.int 32)) :=
  width_reconciliation sampleEnv sampleCompiler (.global 7 (.int 32)) 32 rfl

/-! ## The runtime helpers -/

/-- C4.  `unsafe_New` and `unsafe_NewArray` each make exactly two primitive calls: one
`malloc` with a byte count, then one `bzero` on the pointer that `malloc` returned with
the same byte count; each returns that pointer, and the heap it leaves is the heap
after that `bzero`.  No branch skips the zero-fill. -/
theorem zero_fill_guarantee {H : Type} (rt : RtEnv H) (s : Runtime H) (t : rtype) (n : Int) :
    (unsafe_New rt s t).2.calls
        = s.calls ++ [.malloc t.size (rt.malloc s.heap t.size).1,
            .bzero (rt.malloc s.heap t.size).1 t.size] ∧
    (unsafe_New rt s t).1 = (rt.malloc s.heap t.size).1 ∧
    (unsafe_New rt s t).2.heap
        = rt.bzero (rt.malloc s.heap t.size).2 (rt.malloc s.heap t.size).1 t.size ∧
    (∃ bytes,
      (unsafe_NewArray rt s t n).2.calls
          = s.calls ++ [.malloc bytes (rt.malloc s.heap bytes).1,
              .bzero (rt.malloc s.heap bytes).1 bytes] ∧
      (unsafe_NewArray rt s t n).1 = (rt.malloc s.heap bytes).1 ∧
      (unsafe_NewArray rt s t n).2.heap
          = rt.bzero (rt.malloc s.heap bytes).2 (rt.malloc s.heap bytes).1 bytes) := by
  refine ⟨?_, rfl, rfl, mulUintptr rt.ptrBits t.size (uintptr rt.ptrBits n), ?_, rfl, rfl⟩
  · simp [unsafe_New, callMalloc, callBzero]
  · simp [unsafe_NewArray, callMalloc, callBzero]

/-- C4, witness: on the sample runtime `unsafe_NewArray` with eight-byte elements and
count three calls `malloc(24)`, zero-fills 24 bytes at the pointer returned, and returns
that pointer. -/
theorem zero_fill_guarantee_witness :
    (unsafe_New sampleRt sampleRuntime ⟨8⟩).2.calls = [.malloc 8 4096, .bzero 4096 8] ∧
    (unsafe_New sampleRt sampleRuntime ⟨8⟩).1 = 4096 ∧
    (unsafe_NewArray sampleRt sampleRuntime ⟨8⟩ 3).2.calls
      = [.malloc 24 4096, .bzero 4096 24] ∧
    (unsafe_NewArray sampleRt sampleRuntime ⟨8⟩ 3).1 = 4096 :=
  ⟨(zero_fill_guarantee sampleRt sampleRuntime ⟨8⟩ 3).1,
    (zero_fill_guarantee sampleRt sampleRuntime ⟨8⟩ 3).2.1, by decide, by decide⟩

theorem uintptr_of_nonneg (bits : Nat) (n : Int) (h : 0 ≤ n) :
    uintptr bits n = n.toNat % 2 ^ bits := by
  obtain ⟨m, rfl⟩ := Int.eq_ofNat_of_zero_le h
  unfold uintptr
  rw [show ((m : Int) % ((2 ^ bits : Nat) : Int)) = ((m % 2 ^ bits : Nat) : Int) from
    (Int.natCast_mod m (2 ^ bits)).symm]
  simp only [Int.toNat_ofNat]

/-- C9 (amended).  The byte count `unsafe_NewArray` requests from `malloc` and
zero-fills is the product of `t.size` and `uintptr(n)` reduced modulo `2 ^ ptrBits`; it
is the product `t.size * n` whenever `n` is not negative and that product is below
`2 ^ ptrBits`. -/
theorem new_array_bytes {H : Type} (rt : RtEnv H) (s : Runtime H) (t : rtype) (n : Int) :
    firstMallocBytes ((unsafe_NewArray rt s t n).2.calls.drop s.calls.length)
      = some ((t.size * uintptr rt.ptrBits n) % 2 ^ rt.ptrBits) ∧
    (unsafe_NewArray rt s t n).2.calls.drop s.calls.length
      = [.malloc ((t.size * uintptr rt.ptrBits n) % 2 ^ rt.ptrBits)
            (unsafe_NewArray rt s t n).1,
          .bzero (unsafe_NewArray rt s t n).1
            ((t.size * uintptr rt.ptrBits n) % 2 ^ rt.ptrBits)] ∧
    (0 ≤ n → (t.size : Int) * n < 2 ^ rt.ptrBits →
      (((t.size * uintptr rt.ptrBits n) % 2 ^ rt.ptrBits : Nat) : Int) = (t.size : Int) * n) := by
  refine ⟨?_, ?_, fun h0 hlt => ?_⟩
  · simp [unsafe_NewArray, callMalloc, callBzero, mulUintptr, firstMallocBytes]
  · simp [unsafe_NewArray, callMalloc, callBzero, mulUintptr]
  · rw [uintptr_of_nonneg _ _ h0, Nat.mul_mod_mod]
    obtain ⟨m, rfl⟩ := Int.eq_ofNat_of_zero_le h0
    have hlt1 : t.size * m < 2 ^ rt.ptrBits := by exact_mod_cast hlt
    simp only [Int.toNat_ofNat]
    rw [Nat.mod_eq_of_lt hlt1]
    push_cast
    rfl

/-- C9, witness: eight-byte elements, count three, on the 64-bit sample runtime. -/
theorem new_array_bytes_witness :
    firstMallocBytes ((unsafe_NewArray sampleRt sampleRuntime ⟨8⟩ 3).2.calls.drop
        sampleRuntime.calls.length) = some 24 ∧
    (((8 * uintptr sampleRt.ptrBits 3) % 2 ^ sampleRt.ptrBits : Nat) : Int) = (8 : Int) * 3 :=
  ⟨(new_array_bytes sampleRt sampleRuntime ⟨8⟩ 3).1,
    (new_array_bytes sampleRt sampleRuntime ⟨8⟩ 3).2.2 (by decide) (by decide)⟩

/-- C9, counterexample: for eight-byte elements and count `2 ^ 61` on a 64-bit target the
product is `2 ^ 64`, and `unsafe_NewArray` requests and zero-fills zero bytes. -/
theorem new_array_bytes_overflow :
    (unsafe_NewArray sampleRt sampleRuntime ⟨8⟩ ((2 ^ 61 : Nat) : Int)).2.calls
      = [.malloc 0 4096, .bzero 4096 0] ∧
    firstMallocBytes (unsafe_NewArray sampleRt sampleRuntime ⟨8⟩ ((2 ^ 61 : Nat) : Int)).2.calls
      = some 0 ∧
    (8 : Int) * ((2 ^ 61 : Nat) : Int) ≠ 0 := by
  refine ⟨?_, ?_, by decide⟩
  · decide
  · decide

end Llgo
